import Mathlib

set_option autoImplicit false

/-!
Shallow embedding of the core of the `HectorMRC/ithaca` repository:

* the node-insertion pipeline `Insert::execute` of `alvidir/src/schema/insert.rs`;
* the constraint chain `LiFoConstraintChain` of `src/experience/domain/constraint/mod.rs`;
* the experience repository and aggregate composer of `plotline/src/experience/repository.rs`.

Machine integers do not occur in the embedded code; identifiers (`Id<T>`, `T::Id`)
are modelled as `Nat` (the source only requires them to be `Ord + Clone + Eq`).
Fallible Rust code returning `Result` is embedded as `Except`.
-/

/-- The `Identify` trait of `alvidir` (`id.rs`, used by `insert.rs`): a node exposes
its identifier. Identifiers are modelled as `Nat`. -/
class Identify (α : Type) where
  id : α → Nat

/-- Association-list update keyed by an identifier: replaces the entry stored under
key `i` when present, appends a fresh entry otherwise. This is the behaviour of a
keyed map insert on maps whose keys are unique. -/
def insertNodes {α : Type} (i : Nat) (node : α) : List (Nat × α) → List (Nat × α)
  | [] => [(i, node)]
  | kv :: rest => if kv.fst == i then (i, node) :: rest else kv :: insertNodes i node rest

/-- Association-list lookup by key. -/
def lookupNode {α : Type} (i : Nat) : List (Nat × α) → Option α
  | [] => none
  | kv :: rest => if kv.fst == i then some kv.snd else lookupNode i rest

/-- Modelled from the spec: `alvidir`'s `Graph<T>` is not under `src/` (only its use in
`schema/insert.rs` is). Per the spec it is a store owning all its nodes, keyed by each
node's identifier. Modelled as an association list from identifier to node. -/
structure Graph (α : Type) where
  nodes : List (Nat × α)

/-- Modelled from the spec: `Graph::insert` stores the node under its identifier
(per spec section 8, nodes are "keyed by that node's identifier"); a keyed-map put
replaces any node already stored under the same identifier. -/
def Graph.insert {α : Type} [Identify α] (g : Graph α) (node : α) : Graph α :=
  ⟨insertNodes (Identify.id node) node g.nodes⟩

/-- Lookup of the node stored under identifier `i`, if any. -/
def Graph.get? {α : Type} (g : Graph α) (i : Nat) : Option α :=
  lookupNode i g.nodes

/-- The state of the schema's lock-protected graph (`schema.graph : RwLock<Graph<T>>`):
the stored graph together with whether the lock is poisoned. -/
structure LockedGraph (α : Type) where
  graph : Graph α
  poisoned : Bool

/-- The lock acquisition at the top of `Insert::execute` (insert.rs lines 64-70): an `Ok`
guard yields the stored graph; a poisoned guard is recovered via `poisoned.into_inner()`,
which yields the same last-written graph, with only a log line emitted. -/
def acquireGraph {α : Type} (l : LockedGraph α) : Graph α :=
  match l.poisoned with
  | false => l.graph
  | true => l.graph

/-- Shallow embedding of `Insert::execute` (insert.rs lines 62-95). A before-trigger
chain is any function of the borrowed graph (the `NodeToInsert.graph` field) and the
candidate node (held in a `RefCell`, so triggers may replace it) returning the possibly
mutated node or an error; an after-trigger chain is any function of the committed schema
state and the inserted identifier (the `InsertedNode` context). The result is the
transaction's outcome paired with the graph stored in the schema after the call. -/
def insertExecute {α ε : Type} [Identify α] (before : Graph α → α → Except ε α)
    (after : Graph α → Nat → Except ε Unit) (node : α) (l : LockedGraph α) :
    Except ε Unit × Graph α :=
  let graph := acquireGraph l
  match before graph node with
  | .error e => (.error e, graph)
  | .ok finalNode =>
    let insertedId := Identify.id finalNode
    let graph := graph.insert finalNode
    (after graph insertedId, graph)

/-- A concrete node type used by the witnesses: an identifier plus a payload value. -/
structure TNode where
  id : Nat
  val : Nat
  deriving DecidableEq, Repr

instance : Identify TNode :=
  ⟨TNode.id⟩

/-- The `Constraint` trait of `src/experience/domain/constraint/mod.rs`: a validator fed
one borrowed context unit (an `ExperiencedEvent`, modelled by the type parameter `Ctx`)
at a time. `cwith` embeds the trait method `with` (a reserved word in Lean); `result`
returns the final verdict. The carrier `σ` is the concrete constraint's state. -/
class Constraint (Ctx E σ : Type) where
  cwith : σ → Ctx → Except E σ
  result : σ → Except E Unit

/-- The `LiFoConstraintChain` struct (mod.rs lines 48-51): the newest-attached
constraint `constraint` plus an optional rest of the chain `head`. -/
structure LiFoConstraintChain (Head Cnst : Type) where
  head : Option Head
  constraint : Cnst

/-- The `Constraint` impl for `LiFoConstraintChain` (mod.rs lines 72-92): `with` feeds
the unit to the newest constraint first and propagates its error, then to the rest of
the chain via `Option::map`/`transpose`; `result` likewise asks the newest constraint
first, then the rest. -/
instance instConstraintLiFo {Ctx E Head Cnst : Type} [Constraint Ctx E Head]
    [Constraint Ctx E Cnst] : Constraint Ctx E (LiFoConstraintChain Head Cnst) where
  cwith s u :=
    match Constraint.cwith s.constraint u with
    | .error e => .error e
    | .ok c =>
      match s.head with
      | none => .ok ⟨none, c⟩
      | some h =>
        match Constraint.cwith h u with
        | .error e => .error e
        | .ok h2 => .ok ⟨some h2, c⟩
  result s :=
    match Constraint.result Ctx s.constraint with
    | .error e => .error e
    | .ok _ =>
      match s.head with
      | none => .ok ()
      | some h =>
        match Constraint.result Ctx h with
        | .error e => .error e
        | .ok _ => .ok ()

/-- The `ConstraintChain::chain` impl for `LiFoConstraintChain` (mod.rs lines 61-69):
the given constraint becomes the newest member and the old chain the rest. -/
def LiFoConstraintChain.chain {Head Cnst Tail : Type} (s : LiFoConstraintChain Head Cnst)
    (constraint : Tail) : LiFoConstraintChain (LiFoConstraintChain Head Cnst) Tail :=
  ⟨some s, constraint⟩

/-- `LiFoConstraintChain::new` (mod.rs lines 94-101): a chain with no rest. -/
def LiFoConstraintChain.new {Cnst : Type} (constraint : Cnst) :
    LiFoConstraintChain Unit Cnst :=
  ⟨none, constraint⟩

/-- The `Constraint` impl for the unit type `()` (mod.rs lines 118-126): it accepts
every unit and always yields an `Ok` verdict. -/
instance instConstraintUnit {Ctx E : Type} : Constraint Ctx E Unit where
  cwith s _ := .ok s
  result _ := .ok ()

/-- A concrete constraint for the C4 witness: rejects the context unit `0` and counts
the accepted units. -/
structure NonZeroCount where
  seen : Nat
  deriving DecidableEq, Repr

instance : Constraint Nat String NonZeroCount where
  cwith s u := if u == 0 then .error "zero unit" else .ok ⟨s.seen + 1⟩
  result _ := .ok ()

/-- Modelled from the spec: plotline's `Entity` (its definition is not under `src/`; only
its use in `repository.rs` is). An identifiable record with a `Default` value and a
`with_id` builder overriding the identifier; the value-bearing fields are modelled by a
single `name` string. -/
structure Entity where
  id : Nat
  name : String
  deriving DecidableEq, Repr

/-- `Entity::default()`: empty value fields, default identifier. -/
def Entity.default : Entity :=
  ⟨0, ""⟩

/-- `Entity::with_id(id)`: the same entity carrying the given identifier. -/
def Entity.with_id (e : Entity) (i : Nat) : Entity :=
  ⟨i, e.name⟩

/-- Modelled from the spec: plotline's `Event` (not under `src/`), as for `Entity`. -/
structure Event where
  id : Nat
  name : String
  deriving DecidableEq, Repr

/-- `Event::default()`. -/
def Event.default : Event :=
  ⟨0, ""⟩

/-- `Event::with_id(id)`. -/
def Event.with_id (e : Event) (i : Nat) : Event :=
  ⟨i, e.name⟩

/-- The `RawProfile` struct (repository.rs lines 23-27): the referenced entity's
identifier plus a field-name to value mapping (modelled as an association list). -/
structure RawProfile where
  entity : Nat
  values : List (String × String)
  deriving DecidableEq, Repr

/-- The `RawExperience` struct (repository.rs lines 46-52): the stored record. -/
structure RawExperience where
  id : Nat
  entity : Nat
  event : Nat
  profiles : List RawProfile
  deriving DecidableEq, Repr

/-- The composed `Profile` of an `Experience`: the resolved entity plus the values. -/
structure Profile where
  entity : Entity
  values : List (String × String)
  deriving DecidableEq, Repr

/-- The composed `Experience` aggregate view. -/
structure Experience where
  id : Nat
  entity : Entity
  event : Event
  profiles : List Profile
  deriving DecidableEq, Repr

/-- The `From<&Profile> for RawProfile` impl (repository.rs lines 37-44). -/
def RawProfile.ofProfile (p : Profile) : RawProfile :=
  ⟨p.entity.id, p.values⟩

/-- The `From<&Experience> for RawExperience` impl (repository.rs lines 62-71): the
aggregate-to-raw projection keeping each referenced identifier. -/
def RawExperience.ofExperience (e : Experience) : RawExperience :=
  ⟨e.id, e.entity.id, e.event.id, e.profiles.map RawProfile.ofProfile⟩

/-- Modelled from the spec: plotline's `InMemoryEntityRepository::find` (not under
`src/`; only the `EntityRepository` trait is). Per the spec a repository is a
`ResourceMap` keyed by identifier; `find` yields the record stored under the given
identifier or a NotFound error. Modelled as lookup by identifier in the list of stored
entities. -/
def findEntity (repo : List Entity) (i : Nat) : Option Entity :=
  repo.find? (fun e => e.id == i)

/-- Modelled from the spec: plotline's `InMemoryEventRepository::find`, as above. -/
def findEvent (repo : List Event) (i : Nat) : Option Event :=
  repo.find? (fun e => e.id == i)

/-- The identifier set of `ExperienceAggregate::entities` (repository.rs lines 212-221)
in resolution order: the `HashSet` of every profile's entity identifier plus the
experience's subject entity identifier, collected and sorted ascending (the source
comment: "make sure (rw)locking is always done in the same order"). The `HashSet` is
modelled by deduplication and `Vec::sort` by insertion sort; on a duplicate-free list
every ascending sort yields this same unique result. -/
def lockIds (raw : RawExperience) : List Nat :=
  List.insertionSort (fun a b => a ≤ b)
    ((raw.entity :: raw.profiles.map RawProfile.entity).dedup)

/-- `ExperienceAggregate::entities` (repository.rs lines 212-231): each identifier, in
`lockIds` order, resolved via the entity repository, a missing entity degrading to
`Entity::default().with_id(id)`. -/
def ExperienceAggregate.entities (entityRepo : List Entity) (raw : RawExperience) :
    List Entity :=
  (lockIds raw).map (fun i => (findEntity entityRepo i).getD (Entity.default.with_id i))

/-- `ExperienceAggregate::event` (repository.rs lines 233-238): the referenced event,
a missing event degrading to `Event::default().with_id(id)`. -/
def ExperienceAggregate.event (eventRepo : List Event) (raw : RawExperience) : Event :=
  (findEvent eventRepo raw.event).getD (Event.default.with_id raw.event)

/-- The `find_or_default` closure inside `ExperienceAggregate::experience`
(repository.rs lines 245-251). -/
def find_or_default (entities : List Entity) (i : Nat) : Entity :=
  (entities.find? (fun e => e.id == i)).getD (Entity.default.with_id i)

/-- `ExperienceAggregate::experience` (repository.rs lines 240-266): hydrating the raw
record into the composed view given the resolved event and entities. -/
def ExperienceAggregate.experience (raw : RawExperience) (ev : Event)
    (ents : List Entity) : Experience :=
  ⟨raw.id, find_or_default ents raw.entity, ev,
    raw.profiles.map (fun p => ⟨find_or_default ents p.entity, p.values⟩)⟩

/-- `Tx::read` for `ExperienceAggregate` (repository.rs lines 184-195): the composed,
detached view. The Rust code cannot fail here: missing references degrade to defaults,
hence the embedding is a total function. -/
def ExperienceAggregate.read (entityRepo : List Entity) (eventRepo : List Event)
    (raw : RawExperience) : Experience :=
  ExperienceAggregate.experience raw (ExperienceAggregate.event eventRepo raw)
    (ExperienceAggregate.entities entityRepo raw)

/-- The `ExperienceAggregateWriteGuard` (repository.rs lines 286-303): the write guard
over the stored raw record plus the composed view it dereferences to. -/
structure WriteGuard where
  experience : RawExperience
  data : Experience

/-- `Tx::write` for `ExperienceAggregate` (repository.rs lines 197-205): retains the
stored record and composes the same view as `read`. -/
def ExperienceAggregate.write (entityRepo : List Entity) (eventRepo : List Event)
    (raw : RawExperience) : WriteGuard :=
  ⟨raw, ExperienceAggregate.read entityRepo eventRepo raw⟩

/-- A mutation of the composed view through the guard's `DerefMut` impl
(repository.rs lines 299-303): the caller may rewrite `data` arbitrarily. -/
def WriteGuard.modify (g : WriteGuard) (f : Experience → Experience) : WriteGuard :=
  ⟨g.experience, f g.data⟩

/-- `TxWriteGuard::commit` (repository.rs lines 305-308): the stored record is
overwritten by re-deriving it from the (possibly mutated) composed view. -/
def WriteGuard.commit (g : WriteGuard) : RawExperience :=
  RawExperience.ofExperience g.data

/-- `TxWriteGuard::rollback` (repository.rs line 310): the stored record is untouched. -/
def WriteGuard.rollback (g : WriteGuard) : RawExperience :=
  g.experience

/-- Modelled from the spec: plotline's experience `Error` type is not under `src/`
(only its uses are). `NotFound` and `AlreadyExists` follow the spec's taxonomy; `Lock`
is the caller-visible variant produced by `map_err(Error::from)` applied to a poisoned
`RwLock` guard in repository.rs lines 98-139 (the `From<PoisonError>` impl is outside
`src/`, but its existence and use are forced by that code). -/
inductive Error where
  | NotFound
  | AlreadyExists
  | Lock
  deriving DecidableEq, Repr

/-- The `ExperienceFilter` query object: each populated field must equal the stored
record's corresponding field. -/
structure ExperienceFilter where
  id : Option Nat
  entity : Option Nat
  event : Option Nat
  deriving DecidableEq, Repr

/-- `ExperienceFilter::matches` (repository.rs lines 313-320), built from the
`equals_or_return!` macro: an unpopulated field always matches; a populated field
rejects on inequality. -/
def ExperienceFilter.matches (f : ExperienceFilter) (e : RawExperience) : Bool :=
  f.id.all (fun i => i == e.id) && (f.entity.all (fun i => i == e.entity))
    && (f.event.all (fun i => i == e.event))

/-- The state of `InMemoryExperienceRepository.experiences : RwLock<ResourceMap<..>>`:
the stored keyed records plus whether the lock is poisoned. -/
structure ExperienceMap where
  entries : List (Nat × RawExperience)
  poisoned : Bool
  deriving DecidableEq, Repr

/-- `ResourceMap::contains_key`. -/
def containsKey (l : List (Nat × RawExperience)) (i : Nat) : Bool :=
  l.any (fun kv => kv.fst == i)

/-- `InMemoryExperienceRepository::find` (repository.rs lines 98-107): a poisoned lock
is propagated to the caller via `map_err(Error::from)?`; otherwise the record under the
identifier is returned (the `aggregate` wrapper itself always succeeds), or NotFound. -/
def findRepo (m : ExperienceMap) (i : Nat) : Except Error RawExperience :=
  match m.poisoned with
  | true => .error .Lock
  | false =>
    match lookupNode i m.entries with
    | some r => .ok r
    | none => .error .NotFound

/-- `InMemoryExperienceRepository::filter` (repository.rs lines 109-118): a poisoned
lock is propagated via `map_err(Error::from)?`; otherwise every stored record matching
the filter is returned. -/
def filterRepo (m : ExperienceMap) (f : ExperienceFilter) : Except Error (List RawExperience) :=
  match m.poisoned with
  | true => .error .Lock
  | false => .ok ((m.entries.map Prod.snd).filter (fun e => f.matches e))

/-- `InMemoryExperienceRepository::create` (repository.rs lines 120-129): a poisoned
lock is propagated via `map_err(Error::from)?`; an already-present identifier yields
AlreadyExists; otherwise the record is stored under the experience's identifier. The
referenced entity and event identifiers are not consulted at all. -/
def createRepo (m : ExperienceMap) (e : Experience) : Except Error Unit × ExperienceMap :=
  match m.poisoned with
  | true => (.error .Lock, m)
  | false =>
    if containsKey m.entries e.id then (.error .AlreadyExists, m)
    else (.ok (), ⟨m.entries ++ [(e.id, RawExperience.ofExperience e)], false⟩)

/-- `InMemoryExperienceRepository::delete` (repository.rs lines 131-139): a poisoned
lock is propagated via `map_err(Error::from)?`; `remove` of an absent identifier yields
NotFound, otherwise the entry under the identifier is removed. -/
def deleteRepo (m : ExperienceMap) (i : Nat) : Except Error Unit × ExperienceMap :=
  match m.poisoned with
  | true => (.error .Lock, m)
  | false =>
    if containsKey m.entries i then
      (.ok (), ⟨m.entries.filter (fun kv => !(kv.fst == i)), false⟩)
    else (.error .NotFound, m)

theorem acquireGraph_eq {α : Type} (l : LockedGraph α) : acquireGraph l = l.graph := by
  rcases l with ⟨g, p⟩
  cases p <;> rfl

theorem lookupNode_insertNodes {α : Type} (i : Nat) (n : α) (L : List (Nat × α)) :
    lookupNode i (insertNodes i n L) = some n := by
  induction L with
  | nil => simp [insertNodes, lookupNode]
  | cons kv rest ih =>
    by_cases hk : kv.fst == i
    · simp [insertNodes, lookupNode, hk]
    · simp [insertNodes, lookupNode, hk, ih]

theorem Graph.get?_insert {α : Type} [Identify α] (g : Graph α) (n : α) :
    (g.insert n).get? (Identify.id n) = some n :=
  lookupNode_insertNodes _ _ _

theorem length_insertNodes_of_none {α : Type} {i : Nat} {n : α} {L : List (Nat × α)}
    (h : lookupNode i L = none) : (insertNodes i n L).length = L.length + 1 := by
  induction L with
  | nil => simp [insertNodes]
  | cons kv rest ih =>
    by_cases hk : kv.fst == i
    · simp [lookupNode, hk] at h
    · simp [lookupNode, hk] at h
      simp [insertNodes, hk, ih h]

/-- Claim C1: for every Insert execution (any node, any before-trigger chain, any
after-trigger chain), if a before-trigger returns an error, the graph's node count and
contents are exactly as before the call (the returned graph is the stored graph itself,
so the insert and the identifier-capture never ran), and the Insert returns that
trigger's error. -/
theorem insert_before_failure_aborts {α ε : Type} [Identify α]
    (before : Graph α → α → Except ε α) (after : Graph α → Nat → Except ε Unit)
    (node : α) (l : LockedGraph α) (e : ε)
    (h : before l.graph node = .error e) :
    insertExecute before after node l = (.error e, l.graph) := by
  simp [insertExecute, acquireGraph_eq, h]

/-- Witness for C1 at a concrete input: a failing before-trigger on a one-node graph. -/
theorem insert_before_failure_aborts_witness :
    insertExecute (fun _ _ => (Except.error 42 : Except Nat TNode))
      (fun _ _ => Except.ok ()) (TNode.mk 0 7) (LockedGraph.mk ⟨[(5, TNode.mk 5 1)]⟩ false)
      = (.error 42, ⟨[(5, TNode.mk 5 1)]⟩) :=
  insert_before_failure_aborts _ _ _ _ 42 rfl

/-- Claim C2: for every Insert execution in which all before-triggers succeed and an
after-trigger then returns an error, the node is still present in the graph (the
mutation is not rolled back) and the Insert returns the after-trigger's error. -/
theorem insert_after_failure_keeps_node {α ε : Type} [Identify α]
    (before : Graph α → α → Except ε α) (after : Graph α → Nat → Except ε Unit)
    (node finalNode : α) (l : LockedGraph α) (e : ε)
    (h1 : before l.graph node = .ok finalNode)
    (h2 : after (l.graph.insert finalNode) (Identify.id finalNode) = .error e) :
    insertExecute before after node l = (.error e, l.graph.insert finalNode)
    ∧ (insertExecute before after node l).2.get? (Identify.id finalNode) = some finalNode := by
  have hrun : insertExecute before after node l = (.error e, l.graph.insert finalNode) := by
    simp [insertExecute, acquireGraph_eq, h1, h2]
  refine ⟨hrun, ?_⟩
  rw [hrun]
  exact Graph.get?_insert _ _

/-- Witness for C2 at a concrete input: the before-trigger accepts the node unchanged,
the after-trigger fails, and the node is nevertheless stored. -/
theorem insert_after_failure_keeps_node_witness :
    insertExecute (fun _ n => (Except.ok n : Except Nat TNode))
      (fun _ _ => Except.error 9) (TNode.mk 3 7) (LockedGraph.mk ⟨[]⟩ false)
      = (.error 9, ⟨[(3, TNode.mk 3 7)]⟩)
    ∧ (insertExecute (fun _ n => (Except.ok n : Except Nat TNode))
        (fun _ _ => Except.error 9) (TNode.mk 3 7) (LockedGraph.mk ⟨[]⟩ false)).2.get? 3
      = some (TNode.mk 3 7) :=
  insert_after_failure_keeps_node _ _ _ (TNode.mk 3 7) _ 9 rfl rfl

/-- Counterexample to claim C9 as stated: with the spec-modelled keyed-map `Graph::insert`,
an execution whose before-trigger succeeds but whose candidate keeps an identifier already
present in the graph replaces the stored node, so the graph does NOT gain exactly one more
node: here both counts are 1. -/
theorem insert_success_count_counterexample :
    (insertExecute (fun _ n => (Except.ok n : Except Unit TNode))
        (fun _ _ => Except.ok ()) (TNode.mk 0 7) (LockedGraph.mk ⟨[(0, TNode.mk 0 5)]⟩ false)).2.nodes.length
      = (Graph.mk [(0, TNode.mk 0 5)] : Graph TNode).nodes.length
    ∧ ¬ ((insertExecute (fun _ n => (Except.ok n : Except Unit TNode))
        (fun _ _ => Except.ok ()) (TNode.mk 0 7) (LockedGraph.mk ⟨[(0, TNode.mk 0 5)]⟩ false)).2.nodes.length
      = (Graph.mk [(0, TNode.mk 0 5)] : Graph TNode).nodes.length + 1) := by
  constructor
  · rfl
  · decide

/-- Claim C9 (amended): for every Insert execution in which all before-triggers succeed,
if the identifier of the (possibly trigger-mutated) candidate node is not already present
in the graph, then the graph afterwards contains exactly one more node than before,
stored under that identifier; a candidate whose identifier is already present replaces
the stored node instead, leaving the count unchanged. -/
theorem insert_success_adds_node {α ε : Type} [Identify α]
    (before : Graph α → α → Except ε α) (after : Graph α → Nat → Except ε Unit)
    (node finalNode : α) (l : LockedGraph α)
    (h1 : before l.graph node = .ok finalNode)
    (h2 : l.graph.get? (Identify.id finalNode) = none) :
    (insertExecute before after node l).2.nodes.length = l.graph.nodes.length + 1
    ∧ (insertExecute before after node l).2.get? (Identify.id finalNode) = some finalNode := by
  have hrun : (insertExecute before after node l).2 = l.graph.insert finalNode := by
    simp [insertExecute, acquireGraph_eq, h1]
  rw [hrun]
  exact ⟨length_insertNodes_of_none h2, Graph.get?_insert _ _⟩

/-- Witness for the amended C9 at a concrete input: inserting a fresh-id node into a
one-node graph yields a two-node graph holding the new node under its identifier. -/
theorem insert_success_adds_node_witness :
    (insertExecute (fun _ n => (Except.ok n : Except Unit TNode))
        (fun _ _ => Except.ok ()) (TNode.mk 2 7) (LockedGraph.mk ⟨[(0, TNode.mk 0 5)]⟩ false)).2.nodes.length
      = (Graph.mk [(0, TNode.mk 0 5)] : Graph TNode).nodes.length + 1
    ∧ (insertExecute (fun _ n => (Except.ok n : Except Unit TNode))
        (fun _ _ => Except.ok ()) (TNode.mk 2 7) (LockedGraph.mk ⟨[(0, TNode.mk 0 5)]⟩ false)).2.get? 2
      = some (TNode.mk 2 7) :=
  insert_success_adds_node _ _ _ (TNode.mk 2 7) _ rfl rfl

theorem cwith_lifo_eq {Ctx E Head Cnst : Type} [Constraint Ctx E Head]
    [Constraint Ctx E Cnst] (s : LiFoConstraintChain Head Cnst) (u : Ctx) :
    Constraint.cwith s u =
      match Constraint.cwith s.constraint u with
      | .error e => .error e
      | .ok c =>
        match s.head with
        | none => (.ok ⟨none, c⟩ : Except E (LiFoConstraintChain Head Cnst))
        | some h =>
          match Constraint.cwith h u with
          | .error e => .error e
          | .ok h2 => .ok ⟨some h2, c⟩ :=
  rfl

theorem result_lifo_eq {Ctx E Head Cnst : Type} [Constraint Ctx E Head]
    [Constraint Ctx E Cnst] (s : LiFoConstraintChain Head Cnst) :
    @Constraint.result Ctx E (LiFoConstraintChain Head Cnst) _ s =
      match @Constraint.result Ctx E Cnst _ s.constraint with
      | .error e => .error e
      | .ok _ =>
        match s.head with
        | none => (.ok () : Except E Unit)
        | some h =>
          match @Constraint.result Ctx E Head _ h with
          | .error e => .error e
          | .ok _ => .ok () :=
  rfl

/-- Claim C4: for every `LiFoConstraintChain` and every context unit fed via `with`,
the newest-attached constraint is evaluated first and its error short-circuits the call
(whatever the rest of the chain holds), then the rest of the chain is evaluated
recursively; `result` reports the first violation in that same newest-first order; the
unit type is the identity constraint that never fails. -/
theorem lifo_chain_newest_first {Ctx E Head Cnst : Type} [Constraint Ctx E Head]
    [Constraint Ctx E Cnst] (s : LiFoConstraintChain Head Cnst) (u : Ctx) (e : E) :
    (Constraint.cwith s.constraint u = .error e →
      ∀ h2 : Option Head, Constraint.cwith (LiFoConstraintChain.mk h2 s.constraint) u
        = (.error e : Except E (LiFoConstraintChain Head Cnst)))
    ∧ (∀ c2 : Cnst, Constraint.cwith s.constraint u = (.ok c2 : Except E Cnst) →
        (s.head = none → Constraint.cwith s u
          = (.ok ⟨none, c2⟩ : Except E (LiFoConstraintChain Head Cnst)))
        ∧ (∀ h : Head, s.head = some h →
            (Constraint.cwith h u = .error e → Constraint.cwith s u = .error e)
            ∧ (∀ h2 : Head, Constraint.cwith h u = (.ok h2 : Except E Head) →
                Constraint.cwith s u
                  = (.ok ⟨some h2, c2⟩ : Except E (LiFoConstraintChain Head Cnst)))))
    ∧ (@Constraint.result Ctx E Cnst _ s.constraint = .error e →
        ∀ h2 : Option Head, @Constraint.result Ctx E (LiFoConstraintChain Head Cnst) _
          (LiFoConstraintChain.mk h2 s.constraint) = .error e)
    ∧ (@Constraint.result Ctx E Cnst _ s.constraint = .ok () →
        (s.head = none → @Constraint.result Ctx E (LiFoConstraintChain Head Cnst) _ s = .ok ())
        ∧ (∀ h : Head, s.head = some h →
            @Constraint.result Ctx E (LiFoConstraintChain Head Cnst) _ s
              = @Constraint.result Ctx E Head _ h))
    ∧ @Constraint.cwith Ctx E Unit instConstraintUnit () u = .ok ()
    ∧ @Constraint.result Ctx E Unit instConstraintUnit () = .ok () := by
  refine ⟨?_, ?_, ?_, ?_, rfl, rfl⟩
  · intro h h2
    rw [cwith_lifo_eq]
    simp [h]
  · intro c2 hc
    constructor
    · intro hh
      rw [cwith_lifo_eq]
      simp [hc, hh]
    · intro h hh
      constructor
      · intro he
        rw [cwith_lifo_eq]
        simp [hc, hh, he]
      · intro h2 h2h
        rw [cwith_lifo_eq]
        simp [hc, hh, h2h]
  · intro h h2
    rw [result_lifo_eq]
    simp [h]
  · intro hc
    constructor
    · intro hh
      rw [result_lifo_eq]
      simp [hc, hh]
    · intro h hh
      rw [result_lifo_eq]
      simp [hc, hh]
      cases hr : @Constraint.result Ctx E Head _ h with
      | error e2 => simp
      | ok v => cases v; simp

/-- Witness for C4 at a concrete input: a two-member chain whose newest member rejects
the unit `0`; the chain's `with` short-circuits with that member's error. -/
theorem lifo_chain_newest_first_witness :
    Constraint.cwith (LiFoConstraintChain.mk (some ()) (NonZeroCount.mk 0)) 0
      = (.error "zero unit" : Except String (LiFoConstraintChain Unit NonZeroCount)) :=
  (lifo_chain_newest_first (LiFoConstraintChain.mk (some ()) (NonZeroCount.mk 0))
    0 "zero unit").1 rfl (some ())

theorem resolve_entity_id (repo : List Entity) (i : Nat) :
    ((findEntity repo i).getD (Entity.default.with_id i)).id = i := by
  cases hf : findEntity repo i with
  | none => rfl
  | some e =>
    have hf2 : repo.find? (fun x => x.id == i) = some e := hf
    have hp := List.find?_some hf2
    simp only [beq_iff_eq] at hp
    simp [hp]

theorem mem_lockIds_iff (raw : RawExperience) (a : Nat) :
    a ∈ lockIds raw ↔ (a = raw.entity ∨ a ∈ raw.profiles.map RawProfile.entity) := by
  unfold lockIds
  rw [(List.perm_insertionSort _ _).mem_iff, List.mem_dedup, List.mem_cons]

theorem entity_mem_lockIds (raw : RawExperience) : raw.entity ∈ lockIds raw :=
  (mem_lockIds_iff raw raw.entity).mpr (Or.inl rfl)

theorem profile_mem_lockIds (raw : RawExperience) {p : RawProfile}
    (hp : p ∈ raw.profiles) : p.entity ∈ lockIds raw :=
  (mem_lockIds_iff raw p.entity).mpr (Or.inr (List.mem_map_of_mem _ hp))

theorem find_or_default_resolve (repo : List Entity) (L : List Nat) (i : Nat)
    (hi : i ∈ L) :
    find_or_default (L.map (fun j => (findEntity repo j).getD (Entity.default.with_id j))) i
      = (findEntity repo i).getD (Entity.default.with_id i) := by
  induction L with
  | nil => cases hi
  | cons j rest ih =>
    by_cases hj : j = i
    · subst hj
      unfold find_or_default
      rw [List.map_cons, List.find?_cons_of_pos]
      · rfl
      · simp [resolve_entity_id repo j]
    · have hi2 : i ∈ rest := by
        rcases List.mem_cons.mp hi with h | h
        · exact absurd h.symm hj
        · exact h
      unfold find_or_default at ih ⊢
      rw [List.map_cons, List.find?_cons_of_neg]
      · exact ih hi2
      · simp [resolve_entity_id repo j, hj]

theorem find_or_default_id (ents : List Entity) (i : Nat) :
    (find_or_default ents i).id = i := by
  unfold find_or_default
  cases hf : ents.find? (fun e => e.id == i) with
  | none => rfl
  | some e =>
    have hp := List.find?_some hf
    simp only [beq_iff_eq] at hp
    simp [hp]

theorem aggregate_event_id (eventRepo : List Event) (raw : RawExperience) :
    (ExperienceAggregate.event eventRepo raw).id = raw.event := by
  unfold ExperienceAggregate.event
  cases hf : findEvent eventRepo raw.event with
  | none => rfl
  | some e =>
    have hf2 : eventRepo.find? (fun x => x.id == raw.event) = some e := hf
    have hp := List.find?_some hf2
    simp only [beq_iff_eq] at hp
    simp [hp]

theorem read_entity_eq (er : List Entity) (vr : List Event) (raw : RawExperience) :
    (ExperienceAggregate.read er vr raw).entity
      = (findEntity er raw.entity).getD (Entity.default.with_id raw.entity) := by
  show find_or_default (ExperienceAggregate.entities er raw) raw.entity = _
  unfold ExperienceAggregate.entities
  exact find_or_default_resolve er (lockIds raw) raw.entity (entity_mem_lockIds raw)

theorem read_profiles_eq (er : List Entity) (vr : List Event) (raw : RawExperience) :
    (ExperienceAggregate.read er vr raw).profiles
      = raw.profiles.map (fun p =>
          ⟨find_or_default (ExperienceAggregate.entities er raw) p.entity, p.values⟩) :=
  rfl

/-- Claim C3: for every raw experience record, the set of referenced entity identifiers
(the subject entity plus every profile's entity) is deduplicated (the resolution list is
nodup and membership is exactly that set) and resolved in ascending identifier order
(the list is sorted), regardless of the order those identifiers appear in the raw record
(any record with the same identifier set yields the same list); the resolved entities of
the composed aggregate follow exactly this lock-acquisition order. -/
theorem lock_order_sorted_dedup (raw : RawExperience) :
    List.Sorted (fun a b => a ≤ b) (lockIds raw)
    ∧ (lockIds raw).Nodup
    ∧ (∀ a : Nat, a ∈ lockIds raw ↔ (a = raw.entity ∨ a ∈ raw.profiles.map RawProfile.entity))
    ∧ (∀ raw2 : RawExperience,
        (raw2.entity :: raw2.profiles.map RawProfile.entity).toFinset
          = (raw.entity :: raw.profiles.map RawProfile.entity).toFinset →
        lockIds raw2 = lockIds raw)
    ∧ (∀ entityRepo : List Entity,
        (ExperienceAggregate.entities entityRepo raw).map Entity.id = lockIds raw) := by
  refine ⟨List.sorted_insertionSort _ _,
    ((List.perm_insertionSort _ _).nodup_iff).mpr (List.nodup_dedup _), ?_, ?_, ?_⟩
  · exact mem_lockIds_iff raw
  · intro raw2 h
    apply List.eq_of_perm_of_sorted ?_ (List.sorted_insertionSort _ _)
      (List.sorted_insertionSort _ _)
    have p2 := List.perm_insertionSort (fun a b : Nat => a ≤ b)
      (raw2.entity :: raw2.profiles.map RawProfile.entity).dedup
    have p1 := List.perm_insertionSort (fun a b : Nat => a ≤ b)
      (raw.entity :: raw.profiles.map RawProfile.entity).dedup
    have pd : List.Perm (raw2.entity :: raw2.profiles.map RawProfile.entity).dedup
        (raw.entity :: raw.profiles.map RawProfile.entity).dedup :=
      List.perm_of_nodup_nodup_toFinset_eq (List.nodup_dedup _) (List.nodup_dedup _)
        (by
          apply List.toFinset.ext
          intro x
          rw [List.mem_dedup, List.mem_dedup, ← List.mem_toFinset, ← List.mem_toFinset, h])
    exact p2.trans (pd.trans p1.symm)
  · intro entityRepo
    have hid := resolve_entity_id entityRepo
    simp [ExperienceAggregate.entities, List.map_map, Function.comp_def, hid]

/-- Witness for C3 at concrete inputs: two records referencing the identifier set
3, 1, 2 in different orders and multiplicities get the identical resolution list. -/
theorem lock_order_sorted_dedup_witness :
    lockIds (RawExperience.mk 11 3 9 [RawProfile.mk 2 [], RawProfile.mk 1 [], RawProfile.mk 3 []])
      = lockIds (RawExperience.mk 10 3 7 [RawProfile.mk 1 [], RawProfile.mk 2 []]) :=
  (lock_order_sorted_dedup
    (RawExperience.mk 10 3 7 [RawProfile.mk 1 [], RawProfile.mk 2 []])).2.2.2.1
    (RawExperience.mk 11 3 9 [RawProfile.mk 2 [], RawProfile.mk 1 [], RawProfile.mk 3 []])
    (by decide)

/-- Claim C6: for every stored experience whose referenced entity or event identifier is
absent from the sibling repository, composing the aggregate still succeeds (`read` is a
total function: the source degrades misses via `unwrap_or_else`), and the missing
reference is replaced by an empty-default placeholder carrying the original identifier;
the write guard composes the very same view. -/
theorem missing_reference_defaults (er : List Entity) (vr : List Event)
    (raw : RawExperience) :
    (findEntity er raw.entity = none →
      (ExperienceAggregate.read er vr raw).entity = Entity.default.with_id raw.entity)
    ∧ (findEvent vr raw.event = none →
      (ExperienceAggregate.read er vr raw).event = Event.default.with_id raw.event)
    ∧ (∀ (k : Nat) (p : RawProfile), raw.profiles[k]? = some p →
        findEntity er p.entity = none →
        ((ExperienceAggregate.read er vr raw).profiles[k]?).map Profile.entity
          = some (Entity.default.with_id p.entity))
    ∧ (ExperienceAggregate.write er vr raw).data = ExperienceAggregate.read er vr raw := by
  refine ⟨?_, ?_, ?_, rfl⟩
  · intro h
    rw [read_entity_eq]
    simp [h]
  · intro h
    show ExperienceAggregate.event vr raw = _
    unfold ExperienceAggregate.event
    simp [h]
  · intro k p hk hmiss
    rw [read_profiles_eq, List.getElem?_map, hk]
    have hpmem : p ∈ raw.profiles := List.mem_iff_getElem?.mpr ⟨k, hk⟩
    have hres := find_or_default_resolve er (lockIds raw) p.entity
      (profile_mem_lockIds raw hpmem)
    simp only [ExperienceAggregate.entities] at *
    simp [hres, hmiss]

/-- Claim C7: for every raw experience record, projecting the hydrated aggregate back to
raw form (the `From<&Experience> for RawExperience` impl) restores the record's
referenced-id fields: the experience id, the entity id, the event id and each profile's
entity id in order; committing an unmutated write guard stores exactly this
projection. -/
theorem raw_projection_inverse (er : List Entity) (vr : List Event)
    (raw : RawExperience) :
    (RawExperience.ofExperience (ExperienceAggregate.read er vr raw)).id = raw.id
    ∧ (RawExperience.ofExperience (ExperienceAggregate.read er vr raw)).entity = raw.entity
    ∧ (RawExperience.ofExperience (ExperienceAggregate.read er vr raw)).event = raw.event
    ∧ (RawExperience.ofExperience (ExperienceAggregate.read er vr raw)).profiles.map RawProfile.entity
        = raw.profiles.map RawProfile.entity
    ∧ WriteGuard.commit (ExperienceAggregate.write er vr raw)
        = RawExperience.ofExperience (ExperienceAggregate.read er vr raw) := by
  refine ⟨rfl, ?_, ?_, ?_, rfl⟩
  · show (ExperienceAggregate.read er vr raw).entity.id = raw.entity
    rw [read_entity_eq]
    exact resolve_entity_id er raw.entity
  · show (ExperienceAggregate.event vr raw).id = raw.event
    exact aggregate_event_id vr raw
  · show ((ExperienceAggregate.read er vr raw).profiles.map RawProfile.ofProfile).map RawProfile.entity
      = raw.profiles.map RawProfile.entity
    rw [read_profiles_eq]
    simp [List.map_map, Function.comp_def, RawProfile.ofProfile, find_or_default_id]

/-- Counterexample to claim C8 as stated: the write guard's `DerefMut` impl hands out
the whole composed view, so a mutation may change a cross-reference, and `commit`
re-derives the stored record from the mutated view: mutating the subject entity's
identifier to 99 and committing stores entity id 99 where the record held 2. -/
theorem write_guard_refs_claim_counterexample :
    (WriteGuard.commit ((ExperienceAggregate.write [] [] (RawExperience.mk 1 2 3 [])).modify
        (fun d => Experience.mk d.id (Entity.with_id d.entity 99) d.event d.profiles))).entity
      ≠ (RawExperience.mk 1 2 3 []).entity := by
  decide

/-- Claim C8 (amended): the write guard does not itself prevent cross-reference
mutation; for every guard mutation that preserves the composed view's referenced-id
fields (i.e. touches only value-bearing fields), the record stored by `commit` carries
exactly the original record's cross-references. -/
theorem write_guard_value_mutation_preserves_refs (er : List Entity) (vr : List Event)
    (raw : RawExperience) (f : Experience → Experience)
    (h1 : (f (ExperienceAggregate.read er vr raw)).id
        = (ExperienceAggregate.read er vr raw).id)
    (h2 : (f (ExperienceAggregate.read er vr raw)).entity.id
        = (ExperienceAggregate.read er vr raw).entity.id)
    (h3 : (f (ExperienceAggregate.read er vr raw)).event.id
        = (ExperienceAggregate.read er vr raw).event.id)
    (h4 : (f (ExperienceAggregate.read er vr raw)).profiles.map (fun p => p.entity.id)
        = (ExperienceAggregate.read er vr raw).profiles.map (fun p => p.entity.id)) :
    (WriteGuard.commit ((ExperienceAggregate.write er vr raw).modify f)).id = raw.id
    ∧ (WriteGuard.commit ((ExperienceAggregate.write er vr raw).modify f)).entity = raw.entity
    ∧ (WriteGuard.commit ((ExperienceAggregate.write er vr raw).modify f)).event = raw.event
    ∧ (WriteGuard.commit ((ExperienceAggregate.write er vr raw).modify f)).profiles.map RawProfile.entity
        = raw.profiles.map RawProfile.entity := by
  have hent : (ExperienceAggregate.read er vr raw).entity.id = raw.entity := by
    rw [read_entity_eq]
    exact resolve_entity_id er raw.entity
  have hev : (ExperienceAggregate.read er vr raw).event.id = raw.event :=
    aggregate_event_id vr raw
  have hprof : (ExperienceAggregate.read er vr raw).profiles.map (fun p => p.entity.id)
      = raw.profiles.map RawProfile.entity := by
    rw [read_profiles_eq]
    simp [List.map_map, Function.comp_def, find_or_default_id]
  refine ⟨?_, ?_, ?_, ?_⟩
  · show (f (ExperienceAggregate.read er vr raw)).id = raw.id
    rw [h1]
    rfl
  · show (f (ExperienceAggregate.read er vr raw)).entity.id = raw.entity
    rw [h2, hent]
  · show (f (ExperienceAggregate.read er vr raw)).event.id = raw.event
    rw [h3, hev]
  · show ((f (ExperienceAggregate.read er vr raw)).profiles.map RawProfile.ofProfile).map RawProfile.entity
      = raw.profiles.map RawProfile.entity
    have hcomp : ((f (ExperienceAggregate.read er vr raw)).profiles.map RawProfile.ofProfile).map RawProfile.entity
        = (f (ExperienceAggregate.read er vr raw)).profiles.map (fun p => p.entity.id) := by
      simp [List.map_map, Function.comp_def, RawProfile.ofProfile]
    rw [hcomp, h4, hprof]

/-- Witness for the amended C8 at a concrete input: a mutation rewriting only profile
values leaves every stored cross-reference equal to the original record's. -/
theorem write_guard_value_mutation_preserves_refs_witness :
    (WriteGuard.commit ((ExperienceAggregate.write [] [] (RawExperience.mk 1 2 3 [RawProfile.mk 4 []])).modify
        (fun d => Experience.mk d.id d.entity d.event
          (d.profiles.map (fun p => Profile.mk p.entity [("k", "v")]))))).id = 1
    ∧ (WriteGuard.commit ((ExperienceAggregate.write [] [] (RawExperience.mk 1 2 3 [RawProfile.mk 4 []])).modify
        (fun d => Experience.mk d.id d.entity d.event
          (d.profiles.map (fun p => Profile.mk p.entity [("k", "v")]))))).entity = 2
    ∧ (WriteGuard.commit ((ExperienceAggregate.write [] [] (RawExperience.mk 1 2 3 [RawProfile.mk 4 []])).modify
        (fun d => Experience.mk d.id d.entity d.event
          (d.profiles.map (fun p => Profile.mk p.entity [("k", "v")]))))).event = 3
    ∧ (WriteGuard.commit ((ExperienceAggregate.write [] [] (RawExperience.mk 1 2 3 [RawProfile.mk 4 []])).modify
        (fun d => Experience.mk d.id d.entity d.event
          (d.profiles.map (fun p => Profile.mk p.entity [("k", "v")]))))).profiles.map RawProfile.entity
        = (RawExperience.mk 1 2 3 [RawProfile.mk 4 []]).profiles.map RawProfile.entity :=
  write_guard_value_mutation_preserves_refs [] [] (RawExperience.mk 1 2 3 [RawProfile.mk 4 []])
    (fun d => Experience.mk d.id d.entity d.event
      (d.profiles.map (fun p => Profile.mk p.entity [("k", "v")])))
    (by decide) (by decide) (by decide) (by decide)

theorem containsKey_filter_self (l : List (Nat × RawExperience)) (i : Nat) :
    containsKey (l.filter (fun kv => !(kv.fst == i))) i = false := by
  induction l with
  | nil => rfl
  | cons kv rest ih =>
    unfold containsKey at ih ⊢
    by_cases hk : kv.fst == i
    · simp [List.filter_cons, hk, ih]
    · simp [List.filter_cons, hk, ih]

/-- Claim C10: on an unpoisoned repository, `create` fails with AlreadyExists exactly
when the identifier is already present and otherwise stores the record and succeeds
(the operation never consults the sibling repositories, so absent entity or event
references cannot fail it: the statement holds for every record whatsoever); `delete`
fails with NotFound exactly when the identifier is absent and otherwise removes that
entry; hence `create` after `delete` of the same identifier succeeds and `create` twice
fails the second time with AlreadyExists. -/
theorem repo_create_delete_spec (l : List (Nat × RawExperience)) (e : Experience)
    (i : Nat) :
    (containsKey l e.id = true →
      createRepo ⟨l, false⟩ e = (.error .AlreadyExists, ⟨l, false⟩))
    ∧ (containsKey l e.id = false →
      createRepo ⟨l, false⟩ e
        = (.ok (), ⟨l ++ [(e.id, RawExperience.ofExperience e)], false⟩))
    ∧ (containsKey l i = true →
      deleteRepo ⟨l, false⟩ i = (.ok (), ⟨l.filter (fun kv => !(kv.fst == i)), false⟩))
    ∧ (containsKey l i = false →
      deleteRepo ⟨l, false⟩ i = (.error .NotFound, ⟨l, false⟩))
    ∧ (containsKey l e.id = true →
      (createRepo (deleteRepo ⟨l, false⟩ e.id).2 e).1 = .ok ())
    ∧ ((createRepo ⟨l, false⟩ e).1 = .ok () →
      (createRepo (createRepo ⟨l, false⟩ e).2 e).1 = .error .AlreadyExists) := by
  refine ⟨?_, ?_, ?_, ?_, ?_, ?_⟩
  · intro h
    simp [createRepo, h]
  · intro h
    simp [createRepo, h]
  · intro h
    simp [deleteRepo, h]
  · intro h
    simp [deleteRepo, h]
  · intro h
    simp [deleteRepo, h, createRepo, containsKey_filter_self]
  · intro h
    by_cases hc : containsKey l e.id
    · simp [createRepo, hc] at h
    · simp only [containsKey] at hc
      simp [createRepo, containsKey, hc, List.any_append]

/-- Witness for C10 at a concrete input: creating a record under the fresh identifier 1
in the empty repository succeeds and stores its raw projection. -/
theorem repo_create_delete_spec_witness :
    createRepo ⟨[], false⟩ (Experience.mk 1 (Entity.mk 2 "") (Event.mk 3 "") [])
      = (.ok (), ⟨[(1, RawExperience.ofExperience
          (Experience.mk 1 (Entity.mk 2 "") (Event.mk 3 "") []))], false⟩) :=
  (repo_create_delete_spec [] (Experience.mk 1 (Entity.mk 2 "") (Event.mk 3 "") []) 0).2.1
    rfl

/-- Counterexample to claim C5 as stated: in repository.rs lines 98-139 every one of
find, filter, create and delete maps a poisoned lock into the caller-visible error via
`map_err(Error::from)?` instead of recovering it: on a poisoned repository all four
return that error to the caller. -/
theorem lock_poison_surfaces_counterexample :
    findRepo ⟨[], true⟩ 0 = .error Error.Lock
    ∧ filterRepo ⟨[], true⟩ (ExperienceFilter.mk none none none) = .error Error.Lock
    ∧ (createRepo ⟨[], true⟩ (Experience.mk 1 (Entity.mk 2 "") (Event.mk 3 "") [])).1
        = .error Error.Lock
    ∧ (deleteRepo ⟨[], true⟩ 0).1 = .error Error.Lock :=
  ⟨rfl, rfl, rfl, rfl⟩

/-- Claim C5 (amended): only the Insert pipeline recovers a poisoned lock locally,
continuing with the last-written graph and behaving exactly as with a healthy lock;
the repository operations find, filter, create and delete instead surface a poisoned
lock to the caller as an error, leaving the map unchanged. -/
theorem lock_poison_policy {α ε : Type} [Identify α] (before : Graph α → α → Except ε α)
    (after : Graph α → Nat → Except ε Unit) (node : α) (g : Graph α)
    (l : List (Nat × RawExperience)) (i : Nat) (f : ExperienceFilter) (e : Experience) :
    insertExecute before after node ⟨g, true⟩ = insertExecute before after node ⟨g, false⟩
    ∧ acquireGraph ⟨g, true⟩ = g
    ∧ findRepo ⟨l, true⟩ i = .error Error.Lock
    ∧ filterRepo ⟨l, true⟩ f = .error Error.Lock
    ∧ createRepo ⟨l, true⟩ e = (.error Error.Lock, ⟨l, true⟩)
    ∧ deleteRepo ⟨l, true⟩ i = (.error Error.Lock, ⟨l, true⟩) :=
  ⟨rfl, rfl, rfl, rfl, rfl, rfl⟩

/-- Witness for C6 at a concrete input: with an empty entity repository, reading a
record whose subject entity is 2 yields the default placeholder carrying id 2. -/
theorem missing_reference_defaults_witness :
    (ExperienceAggregate.read [] [] (RawExperience.mk 1 2 3 [RawProfile.mk 4 []])).entity
      = Entity.default.with_id 2 :=
  (missing_reference_defaults [] [] (RawExperience.mk 1 2 3 [RawProfile.mk 4 []])).1 rfl
